import Mathlib

/-!
Verification of the Tic Tac Toe frontend
(`src/tic_tac_toe_frontend/src/App.js`).

The JavaScript file stores a cell as the string `'X'`, `'O'` or `null`;
we embed cells as `Option Player`.  The board is the React state
`squares` (an array of 9 cells), embedded as `List (Option Player)`;
JavaScript's `squares[i]` on an array (yielding `undefined`, which is
falsy, when out of range) is embedded as `List.getD i none`.
-/

inductive Player
  | X
  | O
deriving DecidableEq, Repr

abbrev Board := List (Option Player)

/-- The 8 win lines of `calculateWinner`: 3 rows, 3 columns, 2 diagonals,
in the order the JavaScript `lines` array lists them. -/
def lines : List (Nat × Nat × Nat) :=
  [(0, 1, 2), (3, 4, 5), (6, 7, 8),
   (0, 3, 6), (1, 4, 7), (2, 5, 8),
   (0, 4, 8), (2, 4, 6)]

/-- The loop body of `calculateWinner`:
`squares[a] && squares[a] === squares[b] && squares[a] === squares[c]`.
An empty (`null`, falsy) first cell never matches. -/
def checkLine (squares : Board) (l : Nat × Nat × Nat) : Option Player :=
  match squares.getD l.1 none with
  | none => none
  | some p =>
      if squares.getD l.2.1 none = some p ∧ squares.getD l.2.2 none = some p then
        some p
      else
        none

/-- The `for (const [a, b, c] of lines)` loop of `calculateWinner`:
returns at the first line whose three cells hold the same non-empty mark. -/
def findWinner (squares : Board) : List (Nat × Nat × Nat) → Option (Player × (Nat × Nat × Nat))
  | [] => none
  | l :: ls =>
      match checkLine squares l with
      | some p => some (p, l)
      | none => findWinner squares ls

/-- `calculateWinner(squares)`: the winner and winning line, or `null`. -/
def calculateWinner (squares : Board) : Option (Player × (Nat × Nat × Nat)) :=
  findWinner squares lines

/-- `squares.every(Boolean)` (a cell is truthy exactly when non-null). -/
def isBoardFull (squares : Board) : Bool :=
  squares.all fun c => c.isSome

/-- The React state of the `App` component. -/
structure GameState where
  squares : Board
  isXNext : Bool
  gameOver : Bool
  history : List Board
deriving DecidableEq, Repr

/-- `useState` initial values: `Array(9).fill(null)`, `true`, `false`, `[]`. -/
def initialState : GameState :=
  { squares := List.replicate 9 none
    isXNext := true
    gameOver := false
    history := [] }

/-- The body of `handleSquareClick(idx)`: no state update if the cell is
filled or the game has ended, otherwise copy the board, set the cell to the
current player's mark, flip the turn and append to the history. -/
def handleSquareClick (s : GameState) (idx : Nat) : GameState :=
  if (s.squares.getD idx none).isSome || s.gameOver then s
  else
    let nextSquares := s.squares.set idx (if s.isXNext then some Player.X else some Player.O)
    { squares := nextSquares
      isXNext := !s.isXNext
      gameOver := s.gameOver
      history := s.history ++ [nextSquares] }

/-- The `React.useEffect` that re-derives `gameOver` from the board:
`if (winResult || isBoardFull) setGameOver(true); else setGameOver(false)`. -/
def syncGameOver (s : GameState) : GameState :=
  { s with gameOver := (calculateWinner s.squares).isSome || isBoardFull s.squares }

/-- A click on cell `idx` as the user observes it: `handleSquareClick`
followed by the `useEffect` re-derivation of `gameOver`.  A rejected click
updates no state, so the effect does not re-fire and the state is returned
unchanged. -/
def applyMove (s : GameState) (idx : Nat) : GameState :=
  if (s.squares.getD idx none).isSome || s.gameOver then s
  else syncGameOver (handleSquareClick s idx)

/-- `handleRestart`: reset all four pieces of state to their initial values. -/
def handleRestart (_s : GameState) : GameState :=
  { squares := List.replicate 9 none
    isXNext := true
    gameOver := false
    history := [] }

/-- The derived game result, as the `status` computation orders its cases:
winner first, then draw on a full board, otherwise still in progress. -/
inductive GameResult
  | InProgress
  | Win (p : Player) (line : Nat × Nat × Nat)
  | Draw
deriving DecidableEq, Repr

/-- `status`: `Winner: _` when `calculateWinner` finds a winner, `Draw!`
when the board is full and there is no winner, else in progress. -/
def gameResult (squares : Board) : GameResult :=
  match calculateWinner squares with
  | some (p, l) => GameResult.Win p l
  | none => if isBoardFull squares then GameResult.Draw else GameResult.InProgress

/-- States reachable through the UI: the initial render, clicks on cells
0–8, and the restart button. -/
inductive Reachable : GameState → Prop
  | init : Reachable initialState
  | move {s : GameState} (idx : Nat) : idx < 9 → Reachable s → Reachable (applyMove s idx)
  | reset {s : GameState} : Reachable s → Reachable (handleRestart s)

/-- Run a list of clicks in order. -/
def runMoves (s : GameState) : List Nat → GameState
  | [] => s
  | i :: is => runMoves (applyMove s i) is

/-- A click that is not rejected by `handleSquareClick`'s guard. -/
def accepted (s : GameState) (idx : Nat) : Bool :=
  !(s.squares.getD idx none).isSome && !s.gameOver

/-- Every click of the list is accepted in the state where it happens. -/
def allAccepted : GameState → List Nat → Bool
  | _, [] => true
  | s, i :: is => accepted s i && allAccepted (applyMove s i) is

/-- Number of cells of the board holding mark `m`. -/
def countMark (m : Player) (squares : Board) : Nat :=
  squares.countP fun c => c = some m

/-! ## Helper lemmas -/

lemma checkLine_eq_some_iff {squares : Board} {l : Nat × Nat × Nat} {p : Player} :
    checkLine squares l = some p ↔
      squares.getD l.1 none = some p ∧ squares.getD l.2.1 none = some p ∧
        squares.getD l.2.2 none = some p := by
  unfold checkLine
  cases h : squares.getD l.1 none with
  | none => simp [h]
  | some q =>
      dsimp only
      split_ifs with hbc
      · obtain ⟨hb, hc⟩ := hbc
        constructor
        · intro hqp
          obtain rfl : q = p := by injection hqp
          exact ⟨rfl, hb, hc⟩
        · rintro ⟨h1, -, -⟩
          exact h1
      · constructor
        · intro hfalse
          cases hfalse
        · rintro ⟨h1, h2, h3⟩
          obtain rfl : q = p := by injection h1
          exact absurd ⟨h2, h3⟩ hbc

lemma findWinner_eq_some_iff {squares : Board} {ls : List (Nat × Nat × Nat)}
    {p : Player} {l : Nat × Nat × Nat} :
    findWinner squares ls = some (p, l) ↔
      ∃ pre suf, ls = pre ++ l :: suf ∧ (∀ l' ∈ pre, checkLine squares l' = none) ∧
        checkLine squares l = some p := by
  induction ls with
  | nil =>
      constructor
      · intro h
        cases h
      · rintro ⟨pre, suf, h, -, -⟩
        exact absurd h (by simp)
  | cons hd tl ih =>
      simp only [findWinner]
      cases hhd : checkLine squares hd with
      | some q =>
          constructor
          · intro h
            rw [Option.some.injEq, Prod.mk.injEq] at h
            obtain ⟨rfl, rfl⟩ := h
            exact ⟨[], tl, rfl, by simp, hhd⟩
          · rintro ⟨pre, suf, heq, hpre, hl⟩
            cases pre with
            | nil =>
                simp only [List.nil_append, List.cons.injEq] at heq
                obtain ⟨rfl, rfl⟩ := heq
                rw [hhd] at hl
                obtain rfl : q = p := by injection hl
                rfl
            | cons p0 pre2 =>
                simp only [List.cons_append, List.cons.injEq] at heq
                obtain ⟨rfl, -⟩ := heq
                have hnone := hpre hd (by simp)
                rw [hhd] at hnone
                cases hnone
      | none =>
          rw [ih]
          constructor
          · rintro ⟨pre, suf, rfl, hpre, hl⟩
            refine ⟨hd :: pre, suf, rfl, ?_, hl⟩
            intro l2 hl2
            rcases List.mem_cons.mp hl2 with rfl | hmem
            · exact hhd
            · exact hpre l2 hmem
          · rintro ⟨pre, suf, heq, hpre, hl⟩
            cases pre with
            | nil =>
                simp only [List.nil_append, List.cons.injEq] at heq
                obtain ⟨rfl, rfl⟩ := heq
                rw [hhd] at hl
                cases hl
            | cons p0 pre2 =>
                simp only [List.cons_append, List.cons.injEq] at heq
                obtain ⟨rfl, rfl⟩ := heq
                exact ⟨pre2, suf, rfl, fun l2 h2 => hpre l2 (List.mem_cons_of_mem _ h2), hl⟩

lemma findWinner_eq_none_iff {squares : Board} {ls : List (Nat × Nat × Nat)} :
    findWinner squares ls = none ↔ ∀ l ∈ ls, checkLine squares l = none := by
  induction ls with
  | nil => simp [findWinner]
  | cons hd tl ih =>
      simp only [findWinner]
      cases hhd : checkLine squares hd with
      | some q =>
          constructor
          · intro h
            cases h
          · intro h
            have hx := h hd (by simp)
            rw [hhd] at hx
            cases hx
      | none =>
          rw [ih]
          constructor
          · intro h l hl
            rcases List.mem_cons.mp hl with rfl | hmem
            · exact hhd
            · exact h l hmem
          · intro h l hl
            exact h l (List.mem_cons_of_mem _ hl)

lemma getD_set_self {α : Type} {l : List α} {i : Nat} {a d : α} (h : i < l.length) :
    (l.set i a).getD i d = a := by
  simp [List.getD_eq_getElem?_getD, List.getElem?_set_self h]

lemma getD_set_ne {α : Type} {l : List α} {i j : Nat} {a d : α} (h : i ≠ j) :
    (l.set i a).getD j d = l.getD j d := by
  simp [List.getD_eq_getElem?_getD, List.getElem?_set_ne h]

lemma applyMove_rejected {s : GameState} {idx : Nat}
    (h : (s.squares.getD idx none).isSome = true ∨ s.gameOver = true) :
    applyMove s idx = s := by
  unfold applyMove
  rcases h with h | h <;> rw [h] <;> simp

lemma applyMove_accepted {s : GameState} {idx : Nat}
    (hempty : s.squares.getD idx none = none) (hgo : s.gameOver = false) :
    applyMove s idx =
      { squares := s.squares.set idx (if s.isXNext then some Player.X else some Player.O)
        isXNext := !s.isXNext
        gameOver :=
          (calculateWinner
              (s.squares.set idx (if s.isXNext then some Player.X else some Player.O))).isSome
            || isBoardFull (s.squares.set idx (if s.isXNext then some Player.X else some Player.O))
        history :=
          s.history ++ [s.squares.set idx (if s.isXNext then some Player.X else some Player.O)] } := by
  unfold applyMove handleSquareClick syncGameOver
  rw [hempty, hgo]
  simp

lemma getElem_eq_none_of_getD {l : Board} {idx : Nat} (hlt : idx < l.length)
    (hempty : l.getD idx none = none) : l[idx] = none := by
  rwa [List.getD_eq_getElem?_getD, List.getElem?_eq_getElem hlt, Option.getD_some] at hempty

lemma countMark_set_same {m : Player} {l : Board} {idx : Nat} (hlt : idx < l.length)
    (hcell : l[idx] = none) :
    countMark m (l.set idx (some m)) = countMark m l + 1 := by
  unfold countMark
  rw [List.countP_set _ _ _ _ hlt, hcell]
  simp

lemma countMark_set_other {m m2 : Player} (hne : m2 ≠ m) {l : Board} {idx : Nat}
    (hlt : idx < l.length) (hcell : l[idx] = none) :
    countMark m (l.set idx (some m2)) = countMark m l := by
  unfold countMark
  rw [List.countP_set _ _ _ _ hlt, hcell]
  simp [hne]

lemma reachable_inv {s : GameState} (h : Reachable s) :
    s.squares.length = 9 ∧
      s.gameOver = ((calculateWinner s.squares).isSome || isBoardFull s.squares) ∧
      (if s.isXNext then countMark Player.X s.squares = countMark Player.O s.squares
       else countMark Player.X s.squares = countMark Player.O s.squares + 1) := by
  induction h with
  | init => decide
  | reset hr ih =>
      rw [show handleRestart _ = initialState from rfl]
      decide
  | @move s idx hidx hr ih =>
      obtain ⟨hlen, hsync, hcount⟩ := ih
      cases hempty : s.squares.getD idx none with
      | some q =>
          rw [applyMove_rejected (Or.inl (by rw [hempty]; rfl))]
          exact ⟨hlen, hsync, hcount⟩
      | none =>
          cases hgo : s.gameOver with
          | true =>
              rw [applyMove_rejected (Or.inr hgo)]
              exact ⟨hlen, hsync, hcount⟩
          | false =>
              rw [applyMove_accepted hempty hgo]
              dsimp only
              have hlt : idx < s.squares.length := by rw [hlen]; exact hidx
              have hcell := getElem_eq_none_of_getD hlt hempty
              refine ⟨by rw [List.length_set]; exact hlen, rfl, ?_⟩
              revert hcount
              cases hx : s.isXNext <;> intro hcount <;> simp only [Bool.not_true,
                Bool.not_false, Bool.false_eq_true, if_true, if_false, ite_true,
                ite_false] at hcount ⊢
              · rw [countMark_set_other (show Player.O ≠ Player.X by decide) hlt hcell,
                  countMark_set_same hlt hcell]
                exact hcount
              · rw [countMark_set_same hlt hcell,
                  countMark_set_other (show Player.X ≠ Player.O by decide) hlt hcell]
                rw [hcount]

lemma accepted_iff {s : GameState} {idx : Nat} :
    accepted s idx = true ↔ s.squares.getD idx none = none ∧ s.gameOver = false := by
  unfold accepted
  cases h : s.squares.getD idx none <;> cases hg : s.gameOver <;> simp

lemma countFilled_set {l : Board} {idx : Nat} (hlt : idx < l.length)
    (hcell : l[idx] = none) (m : Player) :
    (l.set idx (some m)).countP (fun c => c.isSome) = l.countP (fun c => c.isSome) + 1 := by
  rw [List.countP_set _ _ _ _ hlt, hcell]
  simp

lemma isBoardFull_of_countP {l : Board} (h : l.countP (fun c => c.isSome) = l.length) :
    isBoardFull l = true := by
  unfold isBoardFull
  rw [List.all_eq_true]
  intro c hc
  exact List.countP_eq_length.mp h c hc

lemma runMoves_accepted_count (ms : List Nat) :
    ∀ s : GameState, s.squares.length = 9 → (∀ i ∈ ms, i < 9) → allAccepted s ms = true →
      (runMoves s ms).squares.length = 9 ∧
        (runMoves s ms).squares.countP (fun c => c.isSome) =
          s.squares.countP (fun c => c.isSome) + ms.length := by
  induction ms with
  | nil =>
      intro s hlen _ _
      exact ⟨hlen, by simp [runMoves]⟩
  | cons i is ih =>
      intro s hlen hr hacc
      simp only [allAccepted, Bool.and_eq_true] at hacc
      obtain ⟨hacc1, hacc2⟩ := hacc
      obtain ⟨hempty, hgo⟩ := accepted_iff.mp hacc1
      have hi9 : i < 9 := hr i (by simp)
      have hlt : i < s.squares.length := by rw [hlen]; exact hi9
      have hcell := getElem_eq_none_of_getD hlt hempty
      have hstep : (applyMove s i).squares =
          s.squares.set i (if s.isXNext then some Player.X else some Player.O) := by
        rw [applyMove_accepted hempty hgo]
      have hlen2 : (applyMove s i).squares.length = 9 := by
        rw [hstep, List.length_set]
        exact hlen
      have hcount2 : (applyMove s i).squares.countP (fun c => c.isSome) =
          s.squares.countP (fun c => c.isSome) + 1 := by
        rw [hstep]
        by_cases hxn : s.isXNext = true
        · rw [if_pos hxn]
          exact countFilled_set hlt hcell _
        · rw [if_neg hxn]
          exact countFilled_set hlt hcell _
      obtain ⟨ha, hb⟩ := ih (applyMove s i) hlen2 (fun j hj => hr j (by simp [hj])) hacc2
      refine ⟨ha, ?_⟩
      rw [show runMoves s (i :: is) = runMoves (applyMove s i) is from rfl, hb, hcount2]
      simp only [List.length_cons]
      omega

/-! ## Claim theorems -/

/-- Board after the accepted clicks 0, 4, 1, 3, 2: X on the top row. -/
def demoBoard : Board :=
  [some Player.X, some Player.X, some Player.X,
   some Player.O, some Player.O, none, none, none, none]

/-- C1: for every 9-cell board, `calculateWinner` checks exactly the 8 fixed
triples (3 rows, 3 columns, 2 diagonals) for three equal non-empty marks and
returns the first matching triple's player and indices, or none when no
triple matches; any returned line is one of these 8. -/
theorem calculateWinner_checks_exactly_the_8_lines (squares : Board) :
    lines = [(0, 1, 2), (3, 4, 5), (6, 7, 8), (0, 3, 6), (1, 4, 7), (2, 5, 8),
      (0, 4, 8), (2, 4, 6)] ∧
    (∀ p l, calculateWinner squares = some (p, l) →
      l ∈ lines ∧ checkLine squares l = some p ∧
        ∃ pre suf, lines = pre ++ l :: suf ∧ ∀ l2 ∈ pre, checkLine squares l2 = none) ∧
    (calculateWinner squares = none ↔ ∀ l ∈ lines, checkLine squares l = none) := by
  refine ⟨rfl, ?_, findWinner_eq_none_iff⟩
  intro p l h
  obtain ⟨pre, suf, heq, hpre, hl⟩ := findWinner_eq_some_iff.mp h
  refine ⟨?_, hl, pre, suf, heq, hpre⟩
  rw [heq]
  exact List.mem_append_right _ (List.mem_cons_self _ _)

/-- Witness for C1 on a concrete winning board. -/
theorem calculateWinner_checks_exactly_the_8_lines_witness :
    (0, 1, 2) ∈ lines ∧ checkLine demoBoard (0, 1, 2) = some Player.X :=
  ⟨((calculateWinner_checks_exactly_the_8_lines demoBoard).2.1 Player.X (0, 1, 2)
      (by decide)).1,
   ((calculateWinner_checks_exactly_the_8_lines demoBoard).2.1 Player.X (0, 1, 2)
      (by decide)).2.1⟩

/-- C2: a click on an occupied cell, or after the game is decided, is a
silent no-op: board, turn flag and game-over state are all unchanged. -/
theorem applyMove_noop_when_occupied_or_over (s : GameState) (idx : Nat)
    (h : (s.squares.getD idx none).isSome = true ∨ s.gameOver = true) :
    applyMove s idx = s ∧ (applyMove s idx).squares = s.squares ∧
      (applyMove s idx).isXNext = s.isXNext ∧
      (applyMove s idx).gameOver = s.gameOver := by
  have hs := applyMove_rejected h
  exact ⟨hs, by rw [hs], by rw [hs], by rw [hs]⟩

/-- Witness for C2: clicking the already-occupied cell 0 changes nothing. -/
theorem applyMove_noop_when_occupied_or_over_witness :
    applyMove (applyMove initialState 0) 0 = applyMove initialState 0 :=
  (applyMove_noop_when_occupied_or_over (applyMove initialState 0) 0
    (Or.inl (by decide))).1

/-- C3: on an empty cell of an undecided game, `applyMove` sets exactly that
cell to the current turn's mark, leaves every other cell unchanged, and
flips the turn flag. -/
theorem applyMove_valid_sets_cell_and_flips_turn (s : GameState) (idx : Nat)
    (hlen : s.squares.length = 9) (hidx : idx < 9)
    (hempty : s.squares.getD idx none = none) (hgo : s.gameOver = false) :
    (applyMove s idx).squares.getD idx none =
        some (if s.isXNext then Player.X else Player.O) ∧
      (∀ j, j ≠ idx → (applyMove s idx).squares.getD j none = s.squares.getD j none) ∧
      (applyMove s idx).isXNext = !s.isXNext := by
  rw [applyMove_accepted hempty hgo]
  dsimp only
  have hlt : idx < s.squares.length := by rw [hlen]; exact hidx
  refine ⟨?_, ?_, rfl⟩
  · rw [getD_set_self hlt]
    exact (apply_ite some _ _ _).symm
  · intro j hj
    exact getD_set_ne (Ne.symm hj)

/-- Witness for C3: the first click on cell 4 places an X there and hands
the turn to O. -/
theorem applyMove_valid_sets_cell_and_flips_turn_witness :
    (applyMove initialState 4).squares.getD 4 none =
        some (if initialState.isXNext then Player.X else Player.O) ∧
      (applyMove initialState 4).isXNext = !initialState.isXNext :=
  ⟨(applyMove_valid_sets_cell_and_flips_turn initialState 4 rfl (by decide)
      (by decide) rfl).1,
   (applyMove_valid_sets_cell_and_flips_turn initialState 4 rfl (by decide)
      (by decide) rfl).2.2⟩

/-- C4: in every reachable state the game-over flag and the result are
derived from the board alone: game over exactly when there is a winner or
the board is full; a found winner yields `Win` (taking precedence over a
full board), a full winnerless board yields `Draw`, anything else
`InProgress`. -/
theorem gameOver_and_result_derived_from_board (s : GameState) (hr : Reachable s) :
    (s.gameOver = true ↔
        (calculateWinner s.squares).isSome = true ∨ isBoardFull s.squares = true) ∧
      (∀ p l, calculateWinner s.squares = some (p, l) →
        gameResult s.squares = GameResult.Win p l) ∧
      (calculateWinner s.squares = none → isBoardFull s.squares = true →
        gameResult s.squares = GameResult.Draw) ∧
      (calculateWinner s.squares = none → isBoardFull s.squares = false →
        gameResult s.squares = GameResult.InProgress) := by
  obtain ⟨-, hsync, -⟩ := reachable_inv hr
  refine ⟨?_, ?_, ?_, ?_⟩
  · rw [hsync]
    exact iff_of_eq (Bool.or_eq_true _ _)
  · intro p l h
    unfold gameResult
    rw [h]
  · intro h hfull
    unfold gameResult
    rw [h, hfull]
    rfl
  · intro h hfull
    unfold gameResult
    rw [h, hfull]
    rfl

/-- Witness for C4 at the initial state. -/
theorem gameOver_and_result_derived_from_board_witness :
    gameResult initialState.squares = GameResult.InProgress :=
  (gameOver_and_result_derived_from_board initialState Reachable.init).2.2.2
    (by decide) (by decide)

/-- C5: in a reachable state, a cell that holds a non-empty mark keeps that
mark under every further `applyMove`. -/
theorem cell_mark_persists_under_moves (s : GameState) (hr : Reachable s)
    (idx j : Nat) (p : Player) (hcell : s.squares.getD j none = some p) :
    (applyMove s idx).squares.getD j none = some p := by
  by_cases hrej : (s.squares.getD idx none).isSome = true ∨ s.gameOver = true
  · rw [applyMove_rejected hrej, hcell]
  · have hempty : s.squares.getD idx none = none := by
      cases hc : s.squares.getD idx none with
      | none => rfl
      | some q => exact absurd (Or.inl (by rw [hc]; rfl)) hrej
    have hgo : s.gameOver = false := by
      cases hg : s.gameOver with
      | false => rfl
      | true => exact absurd (Or.inr hg) hrej
    rw [applyMove_accepted hempty hgo]
    dsimp only
    have hne : idx ≠ j := by
      intro he
      rw [he, hcell] at hempty
      cases hempty
    rw [getD_set_ne hne, hcell]

/-- Witness for C5: the X placed on cell 0 survives a further click on 0. -/
theorem cell_mark_persists_under_moves_witness :
    (applyMove (applyMove initialState 0) 0).squares.getD 0 none = some Player.X :=
  cell_mark_persists_under_moves (applyMove initialState 0)
    (Reachable.move 0 (by decide) Reachable.init) 0 0 Player.X (by decide)

/-- C6: from every state, `handleRestart` produces the initial state: all 9
cells empty, X to move, game-over cleared. -/
theorem handleRestart_resets_to_initial (s : GameState) :
    handleRestart s = initialState ∧
      (handleRestart s).squares = List.replicate 9 none ∧
      (handleRestart s).isXNext = true ∧
      (handleRestart s).gameOver = false :=
  ⟨rfl, rfl, rfl, rfl⟩

/-- C7: a sequence of 9 accepted clicks from the initial state that leaves
no winning line yields the result `Draw`. -/
theorem nine_accepted_moves_no_winner_is_draw (ms : List Nat) (h9 : ms.length = 9)
    (hr : ∀ i ∈ ms, i < 9) (hacc : allAccepted initialState ms = true)
    (hnw : calculateWinner (runMoves initialState ms).squares = none) :
    gameResult (runMoves initialState ms).squares = GameResult.Draw := by
  obtain ⟨hlen, hcount⟩ := runMoves_accepted_count ms initialState rfl hr hacc
  have hfull : isBoardFull (runMoves initialState ms).squares = true := by
    apply isBoardFull_of_countP
    rw [hcount, hlen, h9]
    decide
  unfold gameResult
  rw [hnw, hfull]
  rfl

/-- Witness for C7 on a concrete 9-click drawn game. -/
theorem nine_accepted_moves_no_winner_is_draw_witness :
    gameResult (runMoves initialState [0, 1, 2, 4, 3, 5, 7, 6, 8]).squares =
      GameResult.Draw :=
  nine_accepted_moves_no_winner_is_draw [0, 1, 2, 4, 3, 5, 7, 6, 8]
    (by decide) (by decide) (by decide) (by decide)

/-- C8: `calculateWinner` is deterministic and total, and a returned winner
really occupies all three cells of the returned line, so empty or missing
cells never produce a win. -/
theorem calculateWinner_deterministic_total (sq1 sq2 : Board) (h : sq1 = sq2) :
    calculateWinner sq1 = calculateWinner sq2 ∧
      (∀ p a b c, calculateWinner sq1 = some (p, (a, b, c)) →
        sq1.getD a none = some p ∧ sq1.getD b none = some p ∧
          sq1.getD c none = some p) := by
  subst h
  refine ⟨rfl, ?_⟩
  intro p a b c hw
  obtain ⟨pre, suf, heq, hpre, hl⟩ := findWinner_eq_some_iff.mp hw
  exact checkLine_eq_some_iff.mp hl

/-- Witness for C8 on a concrete winning board. -/
theorem calculateWinner_deterministic_total_witness :
    demoBoard.getD 0 none = some Player.X ∧ demoBoard.getD 1 none = some Player.X ∧
      demoBoard.getD 2 none = some Player.X :=
  (calculateWinner_deterministic_total demoBoard demoBoard rfl).2 Player.X 0 1 2
    (by decide)

/-- C9: clicks at 0, 4, 1, 3, 2 (placing X, O, X, O, X) from the initial
state yield `Win X (0, 1, 2)`, not a win on line (0, 4, 8). -/
theorem moves_0_4_1_3_2_win_row_012 :
    gameResult (runMoves initialState [0, 4, 1, 3, 2]).squares =
        GameResult.Win Player.X (0, 1, 2) ∧
      calculateWinner (runMoves initialState [0, 4, 1, 3, 2]).squares =
        some (Player.X, (0, 1, 2)) ∧
      calculateWinner (runMoves initialState [0, 4, 1, 3, 2]).squares ≠
        some (Player.X, (0, 4, 8)) := by
  decide

/-- C10: in every reachable state the X count equals the O count when X is
to move and exceeds it by exactly one when O is to move; X never trails and
the difference never exceeds one. -/
theorem mark_counts_balanced (s : GameState) (hr : Reachable s) :
    (s.isXNext = true →
        countMark Player.X s.squares = countMark Player.O s.squares) ∧
      (s.isXNext = false →
        countMark Player.X s.squares = countMark Player.O s.squares + 1) ∧
      countMark Player.O s.squares ≤ countMark Player.X s.squares ∧
      countMark Player.X s.squares ≤ countMark Player.O s.squares + 1 := by
  obtain ⟨-, -, hcount⟩ := reachable_inv hr
  by_cases hx : s.isXNext = true
  · rw [if_pos hx] at hcount
    rw [hx]
    exact ⟨fun _ => hcount, fun h => absurd h (by decide), by omega, by omega⟩
  · rw [if_neg hx] at hcount
    rw [Bool.not_eq_true] at hx
    rw [hx]
    exact ⟨fun h => absurd h (by decide), fun _ => hcount, by omega, by omega⟩

/-- Witness for C10 after one move: X leads by one with O to move. -/
theorem mark_counts_balanced_witness :
    countMark Player.X (applyMove initialState 4).squares =
      countMark Player.O (applyMove initialState 4).squares + 1 :=
  (mark_counts_balanced (applyMove initialState 4)
    (Reachable.move 4 (by decide) Reachable.init)).2.1 (by decide)
